import Mathlib

/-!
Verification development for the `stage_fright` pipeline execution engine
(`src/lib.rs`).

The engine is embedded shallowly:

* `StageArgs`, `StageFile`, `StageManager` mirror the structs of the same
  names in `lib.rs`.
* A boxed `dyn Stage` trait object is modelled by an arbitrary type `σ`
  together with a `StageOps σ C E` record providing the vtable: `setup`
  (the lifecycle hook, defaulting to the identity) and `run`.  A stage's
  `run` takes the context and returns the mutated context together with an
  optional panic (a nested `StageManager` running as a stage can panic on
  lookup or deserialization even though the trait signature is infallible).
* The registry `deserialize_map : HashMap<String, Box<dyn Fn(V) -> Box<dyn
  Stage>>>` is modelled as a function `String → Option (V → Except E σ)`;
  `HashMap::insert` becomes a pointwise function update, and the panicking
  closure `|v| Box::new(S::deserialize(v).unwrap())` becomes a factory
  returning `Except E σ`.
* Rust panics are modelled by the second component of the result: `none`
  means normal return, `some p` means the call unwound with panic `p`.
  The `&mut C` context keeps the mutations applied before the unwinding
  panic, so the context at the moment of the panic is returned alongside.
-/

namespace StageFright

/-- Model of a `serde` deserialization error (`serde_yaml::Error`). -/
inductive DeError where
  | missingField (field : String)
  | typeMismatch
deriving DecidableEq

/-- The panic channel of `run_stages`.  `noEntryFoundForKey` models the
panic of `HashMap`'s `Index` impl reached by `self.deserialize_map[&s.name]`
(line 53); its message is the constant string "no entry found for key" and
carries no further data.  `unwrapErr e` models the panic of
`Result::unwrap()` in the registered closure (line 69), which carries only
the deserializer's error value `e`. -/
inductive PanicMsg (E : Type) where
  | noEntryFoundForKey
  | unwrapErr (e : E)
deriving DecidableEq

/-- Rust `struct StageArgs<V> { name: String, args: V }` (lib.rs lines 20-24). -/
structure StageArgs (V : Type) where
  name : String
  args : V
deriving DecidableEq

/-- Rust `struct StageFile<V> { stages: Vec<StageArgs<V>> }` (lib.rs lines 15-18). -/
structure StageFile (V : Type) where
  stages : List (StageArgs V)
deriving DecidableEq

/-- The vtable of a boxed `dyn Stage<C = C>`: `setup` mutates the stage in
place (default implementation is a no-op, lib.rs line 8), and `run` mutates
the context.  `run` returns the context paired with an optional panic,
because a stage whose `run` delegates to a nested `StageManager` can
unwind. -/
structure StageOps (σ C E : Type) where
  setup : σ → σ
  run : σ → C → C × Option (PanicMsg E)

/-- The `type FnDeserializeStage<C, V>` registry: name to type-erased factory
(lib.rs lines 26, 34). -/
def Registry (σ V E : Type) : Type :=
  String → Option (V → Except E σ)

/-- The empty `deserialize_map` produced by `StageManager::from_file`
(lib.rs line 44). -/
def emptyRegistry : Registry σ V E := fun _ => none

/-- Model of `register_named` (lib.rs lines 63-72): `HashMap::insert` of the factory
closure under `name`, replacing any previous binding. -/
def registerNamed (reg : Registry σ V E) (name : String) (fac : V → Except E σ) :
    Registry σ V E :=
  fun n => if n = name then some fac else reg n

/-- One iteration of the `run_stages` loop for a single descriptor `s`
(lib.rs lines 52-59): look up `s.name` in the registry (the `Index` panic
when absent), invoke the factory on a clone of `s.args` (the `unwrap` panic
on a deserialization error), call `setup()` on the fresh stage and then
`run(context)`. -/
def stepEffect (ops : StageOps σ C E) (reg : Registry σ V E) (s : StageArgs V)
    (c : C) : C × Option (PanicMsg E) :=
  match reg s.name with
  | none => (c, some .noEntryFoundForKey)
  | some f =>
    match f s.args with
    | .error e => (c, some (.unwrapErr e))
    | .ok st => ops.run (ops.setup st) c

/-- Model of `StageManager::run_stages` (lib.rs lines 48-61).  The Rust code is a
lazy `map(...).for_each(...)` over the descriptor list, so for each
descriptor in declared order the lookup/construct/`setup` closure and the
`run` body execute back to back before the next descriptor is touched; a
panic anywhere stops the iteration and unwinds. -/
def runStages (ops : StageOps σ C E) (reg : Registry σ V E) :
    List (StageArgs V) → C → C × Option (PanicMsg E)
  | [], c => (c, none)
  | s :: rest, c =>
    match stepEffect ops reg s c with
    | (c', some p) => (c', some p)
    | (c', none) => runStages ops reg rest c'

/-- Rust `struct StageManager<C, V>` (lib.rs lines 28-35): the parsed stage file
plus the registry.  The extra parameters `σ E` are the model of the erased
stage universe and the deserialization error type. -/
structure StageManager (σ C V E : Type) where
  file : StageFile V
  deserialize_map : Registry σ V E

/-- Model of `StageManager::from_file` (lib.rs lines 41-46). -/
def StageManager.from_file (f : StageFile V) : StageManager σ C V E :=
  { file := f, deserialize_map := emptyRegistry }

/-- The `run_stages` loop with the manager state threaded explicitly
through every iteration, so that the theorem that the manager comes out
unchanged is about a definition in which mutation could have been
expressed.  Each iteration reads the registry and the head descriptor from
the current manager-state `m` exactly as `run_stages` reads them through
`&self`. -/
def runStagesMgrAux (ops : StageOps σ C E) :
    StageManager σ C V E → List (StageArgs V) → C →
      (C × Option (PanicMsg E)) × StageManager σ C V E
  | m, [], c => ((c, none), m)
  | m, s :: rest, c =>
    match stepEffect ops m.deserialize_map s c with
    | (c', some p) => ((c', some p), m)
    | (c', none) => runStagesMgrAux ops m rest c'

/-- Model of `StageManager::run_stages` as a method on the manager: iterate over
`self.file.stages` (lib.rs lines 48-51). -/
def runStagesMgr (ops : StageOps σ C E) (m : StageManager σ C V E) (c : C) :
    (C × Option (PanicMsg E)) × StageManager σ C V E :=
  runStagesMgrAux ops m m.file.stages c

/-- The `impl Stage for StageManager` (lib.rs lines 82-91): `run` delegates to
`run_stages`, `setup` is the trait default (no-op). -/
def managerStageOps (ops : StageOps σ C E) :
    StageOps (StageManager σ C V E) C E where
  setup := fun m => m
  run := fun m c => (runStagesMgr ops m c).1

/-- Lifecycle events of the `run_stages` loop, tagged with the descriptor's
position: successful return of the factory call (a fresh stage instance),
the `setup()` call on it, and the `run(context)` call on it. -/
inductive Ev where
  | construct (i : Nat)
  | setupEv (i : Nat)
  | runEv (i : Nat)
deriving DecidableEq

/-- The `run_stages` loop instrumented with lifecycle events (same loop as
`runStages`, lib.rs lines 48-61, with the three operation points of lines
54, 55 and 59 recorded).  `i` is the position of the first descriptor of
`l` in the whole pipeline. -/
def runStagesEv (ops : StageOps σ C E) (reg : Registry σ V E) :
    Nat → List (StageArgs V) → C → (C × Option (PanicMsg E)) × List Ev
  | _, [], c => ((c, none), [])
  | i, s :: rest, c =>
    match reg s.name with
    | none => ((c, some .noEntryFoundForKey), [])
    | some f =>
      match f s.args with
      | .error e => ((c, some (.unwrapErr e)), [])
      | .ok st =>
        match ops.run (ops.setup st) c with
        | (c', some p) => ((c', some p), [.construct i, .setupEv i, .runEv i])
        | (c', none) =>
          let r := runStagesEv ops reg (i + 1) rest c'
          (r.1, [.construct i, .setupEv i, .runEv i] ++ r.2)

/-- A descriptor that resolves, deserializes, and whose constructed stage's
`run` returns normally (does not unwind) from any context. -/
def GoodDesc (ops : StageOps σ C E) (reg : Registry σ V E) (s : StageArgs V) :
    Prop :=
  ∃ f st, reg s.name = some f ∧ f s.args = .ok st ∧
    ∀ c, (ops.run (ops.setup st) c).2 = none

/-- The expected lifecycle event trace of `n` successful pipeline steps
starting at position `i`: construct, then `setup`, then `run`, once each
per descriptor, in order. -/
def lifecycleTrace (i n : Nat) : List Ev :=
  match n with
  | 0 => []
  | n + 1 => [.construct i, .setupEv i, .runEv i] ++ lifecycleTrace (i + 1) n

/-! ## The concrete test universe of `mod test` (lib.rs lines 93-267)

`serde_yaml::Value` is modelled by `Value`, `CalcContext`/`Add`/`Mul` by
the types below, and a boxed stage of the flat calculator pipelines by the
closed type `CalcStage` whose vtable is `calcOps`. -/

/-- Model of `serde_yaml::Value`, restricted to the shapes the tests use:
integers, strings, sequences and mappings (a mapping as an association
list in document order). -/
inductive Value where
  | int (n : Int)
  | str (s : String)
  | seq (vs : List Value)
  | map (kvs : List (String × Value))

/-- Mapping lookup on a `Value`, as `serde` field access: first entry with
the given key. -/
def Value.getField : Value → String → Option Value
  | .map kvs, k => kvs.lookup k
  | _, _ => none

/-- `struct CalcContext { x: i64 }` (lib.rs lines 99-102). -/
structure CalcContext where
  x : Int
deriving DecidableEq

/-- A boxed `dyn Stage<C = CalcContext>` in the flat calculator tests is
either an `Add { x }` or a `Mul { x }` (lib.rs lines 104-140). -/
inductive CalcStage where
  | add (x : Int)
  | mul (x : Int)
deriving DecidableEq

/-- Model of the derived `Deserialize` for `Add`/`Mul`: read the single
field `x` as an integer. -/
def deserializeX (v : Value) : Except DeError Int :=
  match v.getField "x" with
  | some (.int n) => .ok n
  | some _ => .error .typeMismatch
  | none => .error (.missingField "x")

/-- The factory installed by `register::<Add>()`:
`|v| Box::new(Add::deserialize(v).unwrap())` (lib.rs line 69). -/
def addFactory (v : Value) : Except DeError CalcStage :=
  (deserializeX v).map .add

/-- The factory installed by `register::<Mul>()`. -/
def mulFactory (v : Value) : Except DeError CalcStage :=
  (deserializeX v).map .mul

/-- Vtable for `CalcStage`: `setup` is the trait default no-op; `run` is
`c.x += self.x` for `Add` (lib.rs line 113) and `c.x *= self.x` for `Mul`
(lib.rs line 138), neither of which can panic. -/
def calcOps : StageOps CalcStage CalcContext DeError where
  setup := fun s => s
  run := fun s c =>
    match s with
    | .add n => ({ x := c.x + n }, none)
    | .mul n => ({ x := c.x * n }, none)

/-- The YAML node `args: {x: n}` used by every `Add`/`Mul` descriptor in
the tests. -/
def argsX (n : Int) : Value := .map [("x", .int n)]

/-- Descriptor list of the `calc_add_pipeline` test (lib.rs lines 144-155). -/
def addPipeline : List (StageArgs Value) :=
  [⟨"add", argsX 1⟩, ⟨"add", argsX 2⟩, ⟨"add", argsX 5⟩]

/-- Descriptor list of the `calc_mul_pipeline` test (lib.rs lines 169-180). -/
def mulPipeline : List (StageArgs Value) :=
  [⟨"mul", argsX 1⟩, ⟨"mul", argsX 2⟩, ⟨"mul", argsX 5⟩]

/-- Descriptor list of the `calc_add_mul_pipeline` test (lib.rs lines
194-205). -/
def addMulPipeline : List (StageArgs Value) :=
  [⟨"mul", argsX 1⟩, ⟨"add", argsX 2⟩, ⟨"mul", argsX 5⟩]

/-- Registry after `m.register::<Add>()` (lib.rs line 159). -/
def calcRegAdd : Registry CalcStage Value DeError :=
  registerNamed emptyRegistry "add" addFactory

/-- Registry after `m.register::<Mul>()` (lib.rs line 184). -/
def calcRegMul : Registry CalcStage Value DeError :=
  registerNamed emptyRegistry "mul" mulFactory

/-- Registry after `m.register::<Mul>().register::<Add>()` (lib.rs line
209). -/
def calcRegAddMul : Registry CalcStage Value DeError :=
  registerNamed (registerNamed emptyRegistry "mul" mulFactory) "add" addFactory

/-! ## The recursive test universe of `stage_recursive_pipeline`
(lib.rs lines 217-267)

The outer pipeline's boxed stages are `Add`, `Mul`, or a `Top` wrapping a
nested `StageManager` over the flat calculator universe (the nested
manager's own registry only ever receives `Add` and `Mul`, lib.rs line
229, so the inner stage universe is `CalcStage`). -/

/-- Model of the derived `Deserialize` for `StageArgs`: fields `name`
(string) and `args`. -/
def parseStageArgs (v : Value) : Except DeError (StageArgs Value) :=
  match v.getField "name" with
  | some (.str n) =>
    match v.getField "args" with
    | some a => .ok ⟨n, a⟩
    | none => .error (.missingField "args")
  | some _ => .error .typeMismatch
  | none => .error (.missingField "name")

/-- Model of the derived `Deserialize` for `StageFile`: field `stages` as
a sequence of descriptors. -/
def parseStageFile (v : Value) : Except DeError (StageFile Value) :=
  match v.getField "stages" with
  | some (.seq entries) => (entries.mapM parseStageArgs).map StageFile.mk
  | some _ => .error .typeMismatch
  | none => .error (.missingField "stages")

/-- A boxed `dyn Stage<C = CalcContext>` in the recursive test: `Add`,
`Mul`, or `Top { #[serde(flatten)] stages: StageManager }` (lib.rs lines
219-223). -/
inductive TopStage where
  | sAdd (x : Int)
  | sMul (x : Int)
  | sTop (m : StageManager CalcStage CalcContext Value DeError)

/-- Factory for `Add` in the recursive universe. -/
def addFactoryT (v : Value) : Except DeError TopStage :=
  (deserializeX v).map .sAdd

/-- Factory for `Mul` in the recursive universe. -/
def mulFactoryT (v : Value) : Except DeError TopStage :=
  (deserializeX v).map .sMul

/-- Factory for `Top`: the derived `Deserialize` with `#[serde(flatten)]`
deserializes the nested `StageManager` from the args value — the parsed
`StageFile` plus a `#[serde(skip)]` (hence empty) registry (lib.rs lines
28-35, 219-223). -/
def topFactory (v : Value) : Except DeError TopStage :=
  (parseStageFile v).map fun f => .sTop { file := f, deserialize_map := emptyRegistry }

/-- Vtable for `TopStage`.  `Top::setup` registers `Add` then `Mul` into
the nested manager's registry (lib.rs lines 228-230); `Add`/`Mul` keep the
default no-op `setup`.  `Top::run` delegates to the nested manager's
`Stage::run`, i.e. `run_stages` (lib.rs lines 232-234). -/
def topOps : StageOps TopStage CalcContext DeError where
  setup := fun s =>
    match s with
    | .sTop m =>
      .sTop { m with
        deserialize_map :=
          registerNamed (registerNamed m.deserialize_map "add" addFactory)
            "mul" mulFactory }
    | s => s
  run := fun s c =>
    match s with
    | .sAdd n => ({ x := c.x + n }, none)
    | .sMul n => ({ x := c.x * n }, none)
    | .sTop m => (managerStageOps calcOps).run m c

/-- The YAML args of the `top` descriptor in `stage_recursive_pipeline`
(lib.rs lines 246-253): `{stages: [{name: add, args: {x: 1}}, {name: add,
args: {x: 4}}]}`. -/
def topArgs : Value :=
  .map [("stages", .seq
    [.map [("name", .str "add"), ("args", argsX 1)],
     .map [("name", .str "add"), ("args", argsX 4)]])]

/-- Descriptor list of the `stage_recursive_pipeline` test (lib.rs lines
243-257): `[top([add 1, add 4]), mul 2]`. -/
def topPipeline : List (StageArgs Value) :=
  [⟨"top", topArgs⟩, ⟨"mul", argsX 2⟩]

/-- The nested descriptor list `[add 1, add 4]` as parsed values. -/
def nestedPipeline : List (StageArgs Value) :=
  [⟨"add", argsX 1⟩, ⟨"add", argsX 4⟩]

/-- Registry after `m.register::<Mul>().register::<Add>().register::<Top>()`
(lib.rs line 261). -/
def topRegParent : Registry TopStage Value DeError :=
  registerNamed
    (registerNamed (registerNamed emptyRegistry "mul" mulFactoryT) "add" addFactoryT)
    "top" topFactory

/-- The nested manager's registry after `Top::setup` has run: `Add` then
`Mul` over the empty registry. -/
def nestedRegSetup : Registry CalcStage Value DeError :=
  registerNamed (registerNamed emptyRegistry "add" addFactory) "mul" mulFactory

/-! ## Helper lemmas -/

theorem runStages_append (ops : StageOps σ C E) (reg : Registry σ V E)
    (l₁ l₂ : List (StageArgs V)) (c : C) :
    runStages ops reg (l₁ ++ l₂) c =
      match runStages ops reg l₁ c with
      | (c', none) => runStages ops reg l₂ c'
      | (c', some p) => (c', some p) := by
  induction l₁ generalizing c with
  | nil => rfl
  | cons s rest ih =>
    show (match stepEffect ops reg s c with
      | (c', some p) => (c', some p)
      | (c', none) => runStages ops reg (rest ++ l₂) c') = _
    rcases h : stepEffect ops reg s c with ⟨c', p⟩
    cases p with
    | none => simp only [runStages, h, ih]
    | some p => simp only [runStages, h]

theorem stepEffect_of_good (ops : StageOps σ C E) (reg : Registry σ V E)
    (s : StageArgs V) (h : GoodDesc ops reg s) (c : C) :
    stepEffect ops reg s c = ((stepEffect ops reg s c).1, none) := by
  obtain ⟨f, st, hf, hst, hrun⟩ := h
  simp only [stepEffect, hf, hst]
  exact Prod.ext rfl (hrun c)

theorem runStages_of_good (ops : StageOps σ C E) (reg : Registry σ V E)
    (l : List (StageArgs V)) (h : ∀ s ∈ l, GoodDesc ops reg s) (c : C) :
    runStages ops reg l c =
      (l.foldl (fun c s => (stepEffect ops reg s c).1) c, none) := by
  induction l generalizing c with
  | nil => rfl
  | cons s rest ih =>
    have hs := stepEffect_of_good ops reg s (h s (List.mem_cons_self s rest)) c
    show (match stepEffect ops reg s c with
      | (c', some p) => (c', some p)
      | (c', none) => runStages ops reg rest c') = _
    rw [hs]
    simp only [List.foldl_cons]
    exact ih (fun t ht => h t (List.mem_cons_of_mem s ht)) _

theorem runStages_congr (ops : StageOps σ C E) (ops' : StageOps σ' C E)
    (reg : Registry σ V E) (reg' : Registry σ' V E) (l : List (StageArgs V))
    (h : ∀ s ∈ l, ∀ c, stepEffect ops' reg' s c = stepEffect ops reg s c) (c : C) :
    runStages ops' reg' l c = runStages ops reg l c := by
  induction l generalizing c with
  | nil => rfl
  | cons s rest ih =>
    show (match stepEffect ops' reg' s c with
      | (c', some p) => (c', some p)
      | (c', none) => runStages ops' reg' rest c') = _
    rw [h s (List.mem_cons_self s rest) c]
    rcases hs : stepEffect ops reg s c with ⟨c', p⟩
    cases p with
    | none => simp only [runStages, hs, ih (fun t ht => h t (List.mem_cons_of_mem s ht))]
    | some p => simp only [runStages, hs]

theorem lifecycleTrace_eq_flatMap (n i : Nat) :
    lifecycleTrace i n
      = (List.range n).flatMap
          fun j => [Ev.construct (i + j), Ev.setupEv (i + j), Ev.runEv (i + j)] := by
  induction n generalizing i with
  | zero => rfl
  | succ n ih =>
    rw [List.range_succ_eq_map, List.flatMap_cons, List.flatMap_map]
    rw [show lifecycleTrace i (n + 1)
      = [Ev.construct i, Ev.setupEv i, Ev.runEv i] ++ lifecycleTrace (i + 1) n from rfl]
    rw [ih (i + 1)]
    simp only [Nat.add_zero, Function.comp]
    congr 1
    apply List.flatMap_congr
    intro j hj
    simp only [Nat.add_succ, Nat.succ_add]

theorem runEv_mem_lifecycleTrace (n : Nat) :
    ∀ i j, Ev.runEv j ∈ lifecycleTrace i n → j < i + n := by
  induction n with
  | zero => intro i j h; simp [lifecycleTrace] at h
  | succ n ih =>
    intro i j h
    simp only [lifecycleTrace, List.cons_append, List.nil_append, List.mem_cons] at h
    rcases h with h | h | h | h
    · exact absurd h (by simp)
    · exact absurd h (by simp)
    · cases h; omega
    · have := ih (i + 1) j h; omega

theorem runStagesEv_fst (ops : StageOps σ C E) (reg : Registry σ V E) :
    ∀ (l : List (StageArgs V)) (i : Nat) (c : C),
      (runStagesEv ops reg i l c).1 = runStages ops reg l c := by
  intro l
  induction l with
  | nil => intro i c; rfl
  | cons s rest ih =>
    intro i c
    cases hf : reg s.name with
    | none => simp only [runStagesEv, runStages, stepEffect, hf]
    | some f =>
      cases hst : f s.args with
      | error e => simp only [runStagesEv, runStages, stepEffect, hf, hst]
      | ok st =>
        rcases hr : ops.run (ops.setup st) c with ⟨c', p⟩
        cases p with
        | none =>
          simp only [runStagesEv, runStages, stepEffect, hf, hst, hr]
          exact ih (i + 1) c'
        | some p => simp only [runStagesEv, runStages, stepEffect, hf, hst, hr]

theorem runStagesEv_trace_of_ok (ops : StageOps σ C E) (reg : Registry σ V E) :
    ∀ (l : List (StageArgs V)) (i : Nat) (c : C),
      (runStages ops reg l c).2 = none →
      (runStagesEv ops reg i l c).2 = lifecycleTrace i l.length := by
  intro l
  induction l with
  | nil => intro i c _; rfl
  | cons s rest ih =>
    intro i c hok
    cases hf : reg s.name with
    | none =>
      rw [show runStages ops reg (s :: rest) c
        = (c, some PanicMsg.noEntryFoundForKey) from by
          simp only [runStages, stepEffect, hf]] at hok
      exact absurd hok (by simp)
    | some f =>
      cases hst : f s.args with
      | error e =>
        rw [show runStages ops reg (s :: rest) c
          = (c, some (PanicMsg.unwrapErr e)) from by
            simp only [runStages, stepEffect, hf, hst]] at hok
        exact absurd hok (by simp)
      | ok st =>
        rcases hr : ops.run (ops.setup st) c with ⟨c', p⟩
        cases p with
        | none =>
          rw [show runStages ops reg (s :: rest) c = runStages ops reg rest c' from by
            simp only [runStages, stepEffect, hf, hst, hr]] at hok
          simp only [runStagesEv, hf, hst, hr]
          rw [ih (i + 1) c' hok]
          rfl
        | some p =>
          rw [show runStages ops reg (s :: rest) c = (c', some p) from by
            simp only [runStages, stepEffect, hf, hst, hr]] at hok
          exact absurd hok (by simp)

theorem runStages_append_good (ops : StageOps σ C E) (reg : Registry σ V E)
    (good l₂ : List (StageArgs V)) (h : ∀ s ∈ good, GoodDesc ops reg s) (c : C) :
    runStages ops reg (good ++ l₂) c =
      runStages ops reg l₂ (good.foldl (fun c s => (stepEffect ops reg s c).1) c) := by
  rw [runStages_append, runStages_of_good ops reg good h c]

theorem runStagesEv_append_good (ops : StageOps σ C E) (reg : Registry σ V E) :
    ∀ (good l₂ : List (StageArgs V)), (∀ s ∈ good, GoodDesc ops reg s) →
    ∀ (i : Nat) (c : C),
      (runStagesEv ops reg i (good ++ l₂) c).2 =
        lifecycleTrace i good.length ++
          (runStagesEv ops reg (i + good.length) l₂
            (good.foldl (fun c s => (stepEffect ops reg s c).1) c)).2 := by
  intro good
  induction good with
  | nil => intro l₂ _ i c; rfl
  | cons s rest ih =>
    intro l₂ h i c
    obtain ⟨f, st, hf, hst, hrun⟩ := h s (List.mem_cons_self s rest)
    rcases hr : ops.run (ops.setup st) c with ⟨c', p⟩
    have hp : p = none := by have := hrun c; rw [hr] at this; exact this
    subst hp
    have hstep : stepEffect ops reg s c = (c', none) := by
      simp only [stepEffect, hf, hst, hr]
    simp only [List.cons_append, runStagesEv, hf, hst, hr, List.append_eq]
    rw [ih l₂ (fun t ht => h t (List.mem_cons_of_mem s ht)) (i + 1) c']
    simp only [List.foldl_cons, hstep, List.length_cons, lifecycleTrace]
    simp only [List.cons_append, List.nil_append]
    rw [show i + 1 + rest.length = i + (rest.length + 1) from by omega]

theorem runStagesEv_fail_head (ops : StageOps σ C E) (reg : Registry σ V E)
    (bad : StageArgs V) (rest : List (StageArgs V)) (i : Nat) (c : C)
    (hbad : reg bad.name = none ∨
      ∃ f e, reg bad.name = some f ∧ f bad.args = .error e) :
    (runStagesEv ops reg i (bad :: rest) c).2 = [] := by
  rcases hbad with hf | ⟨f, e, hf, he⟩
  · simp only [runStagesEv, hf]
  · simp only [runStagesEv, hf, he]

theorem runStagesMgrAux_snd (ops : StageOps σ C E) (m : StageManager σ C V E) :
    ∀ (l : List (StageArgs V)) (c : C), (runStagesMgrAux ops m l c).2 = m := by
  intro l
  induction l with
  | nil => intro c; rfl
  | cons s rest ih =>
    intro c
    show (match stepEffect ops m.deserialize_map s c with
      | (c', some p) => ((c', some p), m)
      | (c', none) => runStagesMgrAux ops m rest c').2 = m
    rcases h : stepEffect ops m.deserialize_map s c with ⟨c', p⟩
    cases p with
    | none => exact ih c'
    | some p => rfl

theorem runStagesMgr_snd (ops : StageOps σ C E) (m : StageManager σ C V E) (c : C) :
    (runStagesMgr ops m c).2 = m :=
  runStagesMgrAux_snd ops m m.file.stages c

/-! ## Claim theorems -/

theorem registerNamed_replace (reg : Registry σ V E) (n : String)
    (f g : V → Except E σ) :
    registerNamed (registerNamed reg n f) n g = registerNamed reg n g := by
  funext m
  simp only [registerNamed]
  by_cases hm : m = n <;> simp [hm]

theorem registerNamed_comm (reg : Registry σ V E) (n₁ n₂ : String)
    (f g : V → Except E σ) (hne : n₁ ≠ n₂) :
    registerNamed (registerNamed reg n₁ f) n₂ g
      = registerNamed (registerNamed reg n₂ g) n₁ f := by
  funext m
  simp only [registerNamed]
  by_cases h2 : m = n₂
  · have h1 : m ≠ n₁ := fun h => hne (h.symm.trans h2)
    rw [if_pos h2, if_neg h1, if_pos h2]
  · by_cases h1 : m = n₁
    · rw [if_neg h2, if_pos h1, if_pos h1]
    · rw [if_neg h2, if_neg h1, if_neg h1, if_neg h2]

/-- C1: Order preservation.  For every descriptor list whose names all
resolve, whose args all deserialize and whose stages return normally, one
call to `run_stages` applies the stages' mutations to the context in
exactly the declared order — the final context is the left fold of the
per-descriptor effects over the list — for all stage universes (all stage
types) and all list lengths (all counts).  The first conjunct is the
unconditional sequencing law: the stages of any suffix run on the context
produced by the prefix, so mutations compose strictly left to right even
when a later stage unwinds. -/
theorem runStages_order_foldl :
    (∀ (σ C V E : Type) (ops : StageOps σ C E) (reg : Registry σ V E)
       (l₁ l₂ : List (StageArgs V)) (c : C),
       runStages ops reg (l₁ ++ l₂) c =
         match runStages ops reg l₁ c with
         | (c', none) => runStages ops reg l₂ c'
         | (c', some p) => (c', some p)) ∧
    (∀ (σ C V E : Type) (ops : StageOps σ C E) (reg : Registry σ V E)
       (l : List (StageArgs V)) (c : C), (∀ s ∈ l, GoodDesc ops reg s) →
       runStages ops reg l c
         = (l.foldl (fun c s => (stepEffect ops reg s c).1) c, none)) :=
  ⟨fun _ _ _ _ ops reg l₁ l₂ c => runStages_append ops reg l₁ l₂ c,
   fun _ _ _ _ ops reg l c h => runStages_of_good ops reg l h c⟩

theorem runStages_order_foldl_witness :
    runStages calcOps calcRegAdd addPipeline ⟨1⟩ =
      (addPipeline.foldl (fun c s => (stepEffect calcOps calcRegAdd s c).1) ⟨1⟩, none) := by
  apply runStages_order_foldl.2
  intro s hs
  simp only [addPipeline, List.mem_cons, List.not_mem_nil, or_false] at hs
  rcases hs with rfl | rfl | rfl
  · exact ⟨addFactory, .add 1, rfl, rfl, fun c => rfl⟩
  · exact ⟨addFactory, .add 2, rfl, rfl, fun c => rfl⟩
  · exact ⟨addFactory, .add 5, rfl, rfl, fun c => rfl⟩

/-- C2: Recursive composition.  A nested manager registered as a stage has
the same cumulative effect on the context as inlining its nested stage
list into the parent list, whenever the parent registry gives each inlined
descriptor the same per-step effect as the nested registry does (first
conjunct, for arbitrary stage universes on both levels).  In particular
the parent list `[top([add 1, add 4]), mul 2]` of the
`stage_recursive_pipeline` test run from `x = 1` yields `x = 12`, as does
its inlined form `[add 1, add 4, mul 2]`. -/
theorem nested_manager_inline_equiv :
    (∀ (σ σ' C V E : Type) (ops : StageOps σ C E) (ops' : StageOps σ' C E)
       (reg : Registry σ V E) (reg' : Registry σ' V E)
       (pre post L : List (StageArgs V)) (d : StageArgs V) (c : C),
       (∀ c₀, stepEffect ops reg d c₀ = runStages ops' reg' L c₀) →
       (∀ s ∈ L, ∀ c₀, stepEffect ops' reg' s c₀ = stepEffect ops reg s c₀) →
       runStages ops reg (pre ++ d :: post) c = runStages ops reg (pre ++ L ++ post) c) ∧
    runStages topOps topRegParent topPipeline ⟨1⟩ = (⟨12⟩, none) ∧
    runStages topOps topRegParent
      [⟨"add", argsX 1⟩, ⟨"add", argsX 4⟩, ⟨"mul", argsX 2⟩] ⟨1⟩ = (⟨12⟩, none) := by
  refine ⟨?_, rfl, rfl⟩
  intro σ σ' C V E ops ops' reg reg' pre post L d c hd hagree
  rw [List.append_assoc]
  rw [runStages_append ops reg pre (d :: post) c, runStages_append ops reg pre (L ++ post) c]
  rcases runStages ops reg pre c with ⟨c', p⟩
  cases p with
  | some p => rfl
  | none =>
    show runStages ops reg (d :: post) c' = runStages ops reg (L ++ post) c'
    rw [runStages_append ops reg L post c']
    rw [show runStages ops reg (d :: post) c' = (match stepEffect ops reg d c' with
      | (c'', some p) => (c'', some p)
      | (c'', none) => runStages ops reg post c'') from rfl]
    rw [hd c', ← runStages_congr ops ops' reg reg' L hagree c']
    rcases runStages ops' reg' L c' with ⟨c'', q⟩
    cases q <;> rfl
theorem nested_manager_inline_equiv_witness :
    runStages topOps topRegParent ([] ++ ⟨"top", topArgs⟩ :: [⟨"mul", argsX 2⟩]) ⟨1⟩
      = runStages topOps topRegParent ([] ++ nestedPipeline ++ [⟨"mul", argsX 2⟩]) ⟨1⟩ := by
  apply nested_manager_inline_equiv.1 TopStage CalcStage CalcContext Value DeError
    topOps calcOps topRegParent nestedRegSetup [] [⟨"mul", argsX 2⟩] nestedPipeline
    ⟨"top", topArgs⟩ ⟨1⟩ (fun c₀ => rfl)
  intro s hs
  simp only [nestedPipeline, List.mem_cons, List.not_mem_nil, or_false] at hs
  rcases hs with rfl | rfl
  · exact fun c₀ => rfl
  · exact fun c₀ => rfl

/-- C3: Abort-on-failure with retained prefix effects.  If every
descriptor before `bad` resolves, deserializes and runs normally, and
`bad` is unregistered or fails to deserialize, then `run_stages` fails
with a panic precisely when reaching `bad`: the result context is exactly
the fold of the prefix effects (applied, not rolled back), and the
lifecycle trace contains construct/`setup`/`run` events only for the
prefix positions — no descriptor at `bad`'s position or later executes
its `run`. -/
theorem runStages_abort_first_failure (ops : StageOps σ C E) (reg : Registry σ V E)
    (good rest : List (StageArgs V)) (bad : StageArgs V) (c : C)
    (hgood : ∀ s ∈ good, GoodDesc ops reg s)
    (hbad : reg bad.name = none ∨
      ∃ f e, reg bad.name = some f ∧ f bad.args = .error e) :
    (∃ p, runStages ops reg (good ++ bad :: rest) c
        = (good.foldl (fun c s => (stepEffect ops reg s c).1) c, some p)) ∧
    (runStagesEv ops reg 0 (good ++ bad :: rest) c).2
      = (List.range good.length).flatMap
          (fun i => [Ev.construct i, Ev.setupEv i, Ev.runEv i]) ∧
    (∀ j, Ev.runEv j ∈ (runStagesEv ops reg 0 (good ++ bad :: rest) c).2 →
      j < good.length) := by
  have htr : (runStagesEv ops reg 0 (good ++ bad :: rest) c).2
      = lifecycleTrace 0 good.length := by
    rw [runStagesEv_append_good ops reg good (bad :: rest) hgood 0 c,
      runStagesEv_fail_head ops reg bad rest (0 + good.length) _ hbad,
      List.append_nil]
  refine ⟨?_, ?_, ?_⟩
  · rw [runStages_append_good ops reg good (bad :: rest) hgood c]
    rcases hbad with hf | ⟨f, e, hf, he⟩
    · exact ⟨.noEntryFoundForKey, by simp only [runStages, stepEffect, hf]⟩
    · exact ⟨.unwrapErr e, by simp only [runStages, stepEffect, hf, he]⟩
  · rw [htr, lifecycleTrace_eq_flatMap]
    simp
  · intro j hj
    rw [htr] at hj
    have := runEv_mem_lifecycleTrace good.length 0 j hj
    omega

theorem runStages_abort_first_failure_witness :
    (∃ p, runStages calcOps calcRegAdd
        ([⟨"add", argsX 1⟩] ++ ⟨"bogus", argsX 2⟩ :: [⟨"add", argsX 5⟩]) ⟨1⟩
      = (List.foldl (fun c s => (stepEffect calcOps calcRegAdd s c).1) ⟨1⟩
          [⟨"add", argsX 1⟩], some p)) ∧
    (runStagesEv calcOps calcRegAdd 0
        ([⟨"add", argsX 1⟩] ++ ⟨"bogus", argsX 2⟩ :: [⟨"add", argsX 5⟩]) ⟨1⟩).2
      = (List.range 1).flatMap
          (fun i => [Ev.construct i, Ev.setupEv i, Ev.runEv i]) ∧
    (∀ j, Ev.runEv j ∈ (runStagesEv calcOps calcRegAdd 0
        ([⟨"add", argsX 1⟩] ++ ⟨"bogus", argsX 2⟩ :: [⟨"add", argsX 5⟩]) ⟨1⟩).2 →
      j < 1) := by
  apply runStages_abort_first_failure calcOps calcRegAdd
    [⟨"add", argsX 1⟩] [⟨"add", argsX 5⟩] ⟨"bogus", argsX 2⟩ ⟨1⟩
  · intro s hs
    simp only [List.mem_singleton] at hs
    subst hs
    exact ⟨addFactory, .add 1, rfl, rfl, fun c => rfl⟩
  · exact Or.inl rfl

/-- C4: Determinism.  Running the same manager twice from equal initial
context values produces equal results, and the manager that comes out of
the first run drives the second run to the very same outcome as a fresh
manager would — no state cached in stage instances carries over between
runs (stages are rebuilt from the stored descriptors on every run). -/
theorem runStages_deterministic (ops : StageOps σ C E) (m : StageManager σ C V E)
    (c₁ c₂ : C) (h : c₁ = c₂) :
    (runStagesMgr ops m c₁).1 = (runStagesMgr ops m c₂).1 ∧
    runStagesMgr ops (runStagesMgr ops m c₁).2 c₂ = runStagesMgr ops m c₂ := by
  subst h
  exact ⟨rfl, by rw [runStagesMgr_snd]⟩

theorem runStages_deterministic_witness :
    (runStagesMgr calcOps ⟨⟨addPipeline⟩, calcRegAdd⟩ (⟨1⟩ : CalcContext)).1
      = (runStagesMgr calcOps ⟨⟨addPipeline⟩, calcRegAdd⟩ ⟨1⟩).1 ∧
    runStagesMgr calcOps
        (runStagesMgr calcOps ⟨⟨addPipeline⟩, calcRegAdd⟩ (⟨1⟩ : CalcContext)).2 ⟨1⟩
      = runStagesMgr calcOps ⟨⟨addPipeline⟩, calcRegAdd⟩ ⟨1⟩ :=
  runStages_deterministic calcOps ⟨⟨addPipeline⟩, calcRegAdd⟩ ⟨1⟩ ⟨1⟩ rfl

/-- C5: Registration override.  For every registry state, registering a
second factory under an already-registered name replaces the first
factory; registrations of distinct names commute; and a subsequent
`run_stages` over the doubly-registered registry behaves exactly as over
the registry holding only the latest factory for that name. -/
theorem registerNamed_override_commute :
    (∀ (σ V E : Type) (reg : Registry σ V E) (n : String) (f g : V → Except E σ),
      registerNamed (registerNamed reg n f) n g = registerNamed reg n g) ∧
    (∀ (σ V E : Type) (reg : Registry σ V E) (n₁ n₂ : String)
       (f g : V → Except E σ), n₁ ≠ n₂ →
      registerNamed (registerNamed reg n₁ f) n₂ g
        = registerNamed (registerNamed reg n₂ g) n₁ f) ∧
    (∀ (σ C V E : Type) (ops : StageOps σ C E) (reg : Registry σ V E) (n : String)
       (f g : V → Except E σ) (l : List (StageArgs V)) (c : C),
      runStages ops (registerNamed (registerNamed reg n f) n g) l c
        = runStages ops (registerNamed reg n g) l c) :=
  ⟨fun _ _ _ reg n f g => registerNamed_replace reg n f g,
   fun _ _ _ reg n₁ n₂ f g hne => registerNamed_comm reg n₁ n₂ f g hne,
   fun _ _ _ _ ops reg n f g l c => by rw [registerNamed_replace reg n f g]⟩

theorem registerNamed_override_commute_witness :
    ("add" ≠ "mul") ∧
    registerNamed (registerNamed (emptyRegistry : Registry CalcStage Value DeError)
        "add" addFactory) "mul" mulFactory
      = registerNamed (registerNamed emptyRegistry "mul" mulFactory) "add" addFactory :=
  ⟨by decide,
   registerNamed_override_commute.2.1 CalcStage Value DeError emptyRegistry
     "add" "mul" addFactory mulFactory (by decide)⟩

/-- C6: Stage lifecycle.  During one successful run, the instrumented loop
agrees with `run_stages` and its event trace is exactly, for each
descriptor position in order: one construction of a fresh stage instance
(a fresh factory return), then exactly one `setup()`, then exactly one
`run(context)` — after which the instance is never touched again (no
further event mentions its position), so no instance is shared between
descriptors or runs. -/
theorem stage_lifecycle_trace (ops : StageOps σ C E) (reg : Registry σ V E)
    (l : List (StageArgs V)) (c : C) (h : (runStages ops reg l c).2 = none) :
    (runStagesEv ops reg 0 l c).1 = runStages ops reg l c ∧
    (runStagesEv ops reg 0 l c).2
      = (List.range l.length).flatMap
          fun i => [Ev.construct i, Ev.setupEv i, Ev.runEv i] := by
  refine ⟨runStagesEv_fst ops reg l 0 c, ?_⟩
  rw [runStagesEv_trace_of_ok ops reg l 0 c h, lifecycleTrace_eq_flatMap]
  simp

theorem stage_lifecycle_trace_witness :
    (runStagesEv calcOps calcRegAdd 0 addPipeline ⟨1⟩).1
      = runStages calcOps calcRegAdd addPipeline ⟨1⟩ ∧
    (runStagesEv calcOps calcRegAdd 0 addPipeline ⟨1⟩).2
      = (List.range addPipeline.length).flatMap
          fun i => [Ev.construct i, Ev.setupEv i, Ev.runEv i] :=
  stage_lifecycle_trace calcOps calcRegAdd addPipeline ⟨1⟩ rfl

/-- C7: Concrete scenarios.  With a context holding one integer field `x`:
`[add 1, add 2, add 5]` from `x = 1` yields `x = 9`; `[mul 1, mul 2,
mul 5]` from `x = 1` yields `x = 10`; `[mul 1, add 2, mul 5]` from `x = 1`
yields `x = 15` (the three `mod test` pipelines). -/
theorem calc_concrete_scenarios :
    runStages calcOps calcRegAdd addPipeline ⟨1⟩ = (⟨9⟩, none) ∧
    runStages calcOps calcRegMul mulPipeline ⟨1⟩ = (⟨10⟩, none) ∧
    runStages calcOps calcRegAddMul addMulPipeline ⟨1⟩ = (⟨15⟩, none) :=
  ⟨rfl, rfl, rfl⟩

/-- C8 counterexample: the failure surfaced by `run_stages` does not
identify which stage index or name could not be resolved.  Failing on the
unregistered name "add" and failing on the unregistered name "mul"
surface the very same outcome (the constant key-not-found panic of
`HashMap`'s `Index` impl), and an unresolved name at index 1 surfaces the
same panic value as the same name at index 0. -/
theorem failure_identification_cex :
    runStages calcOps emptyRegistry [⟨"add", argsX 1⟩] ⟨1⟩
      = runStages calcOps emptyRegistry [⟨"mul", argsX 1⟩] ⟨1⟩ ∧
    (runStages calcOps emptyRegistry [⟨"add", argsX 1⟩] ⟨1⟩).2
      = some PanicMsg.noEntryFoundForKey ∧
    (runStages calcOps calcRegAdd [⟨"add", argsX 1⟩, ⟨"bogus", argsX 2⟩] ⟨1⟩).2
      = (runStages calcOps calcRegAdd [⟨"bogus", argsX 2⟩] ⟨1⟩).2 :=
  ⟨rfl, rfl, rfl⟩

/-- C8 amended: whenever a run fails because a descriptor's name could not
be resolved, the failure surfaced to the caller is the constant
key-not-found panic, which carries neither the stage index nor the name;
whenever it fails because the stage could not be constructed, the failure
carries only the deserializer's error value. -/
theorem failure_generic_panic (ops : StageOps σ C E) (reg : Registry σ V E)
    (good rest : List (StageArgs V)) (bad : StageArgs V) (c : C)
    (hgood : ∀ s ∈ good, GoodDesc ops reg s) :
    (reg bad.name = none →
      (runStages ops reg (good ++ bad :: rest) c).2
        = some PanicMsg.noEntryFoundForKey) ∧
    (∀ f e, reg bad.name = some f → f bad.args = .error e →
      (runStages ops reg (good ++ bad :: rest) c).2
        = some (PanicMsg.unwrapErr e)) := by
  rw [runStages_append_good ops reg good (bad :: rest) hgood c]
  constructor
  · intro hf
    simp only [runStages, stepEffect, hf]
  · intro f e hf he
    simp only [runStages, stepEffect, hf, he]

theorem failure_generic_panic_witness :
    (runStages calcOps calcRegAdd
        ([⟨"add", argsX 1⟩] ++ ⟨"bogus", argsX 2⟩ :: []) ⟨1⟩).2
      = some PanicMsg.noEntryFoundForKey :=
  (failure_generic_panic calcOps calcRegAdd [⟨"add", argsX 1⟩] [] ⟨"bogus", argsX 2⟩ ⟨1⟩
    (by
      intro s hs
      simp only [List.mem_singleton] at hs
      subst hs
      exact ⟨addFactory, .add 1, rfl, rfl, fun c => rfl⟩)).1 rfl

/-- C9: Run does not mutate the manager.  `run_stages` (with the manager
state threaded through every loop iteration) returns the manager — its
stored descriptor list and registry — unchanged; a further run from the
returned manager coincides with a run from the original, so the same
descriptors are reusable across multiple `run` calls; and the Stage-trait
`run` of the manager is exactly `run_stages`. -/
theorem runStagesMgr_frame (ops : StageOps σ C E) (m : StageManager σ C V E)
    (c c' : C) :
    (runStagesMgr ops m c).2 = m ∧
    runStagesMgr ops (runStagesMgr ops m c).2 c' = runStagesMgr ops m c' ∧
    (managerStageOps ops).run m c = (runStagesMgr ops m c).1 :=
  ⟨runStagesMgr_snd ops m c, by rw [runStagesMgr_snd], rfl⟩

/-- C10: Empty pipeline is identity.  For every context value and every
registry (the empty one included), `run_stages` on an empty descriptor
list succeeds without error and leaves the context unchanged. -/
theorem runStages_nil_identity (ops : StageOps σ C E) (reg : Registry σ V E) (c : C) :
    runStages ops reg [] c = (c, none) ∧
    runStagesMgr ops { file := ⟨[]⟩, deserialize_map := reg } c
      = ((c, none), { file := ⟨[]⟩, deserialize_map := reg }) :=
  ⟨rfl, rfl⟩

end StageFright

